import Mathlib

/-!
Verification of the Go AST toolkit of this repository:
`src/tutorials/go/debugging/ast/{custom_linter.go, refactoring_tool.go, code_generator.go}`.

The embedding models the subset of `go/ast` these three tools inspect:

* `GoAst.Node` is a tagged-variant syntax tree (identifiers, selector
  expressions, calls, statements, field groups, declarations).  Child
  sequences use the spine type `GoAst.NodeList` so that all traversals are
  structural recursions that the kernel can evaluate on concrete trees.
* `GoAst.Ident` carries the identifier's name, its position, and a model of
  the parser-resolved `ast.Object` (`Ident.Obj` in Go): the object kind
  together with the shape of `Obj.Decl` and the pointer-identity tests the
  source performs on it (`ident == parent.Name`, `ident == fun`, ...).
  Renaming mutates only the `name` field, exactly as `ident.Name = new` does.
* `ast.Inspect` is modelled by the pre-order collectors `collectIdents`
  (all `*ast.Ident` occurrences) and `allNodes` (all nodes).
-/

/-!
Computable models of the `strings`-package helpers the tools call with
single-character separators (`strings.Split`, `strings.HasPrefix`,
`strings.ToLower`), recursing on the character list of the string.
-/

namespace GoStrings

def splitCharAux (c : Char) : List Char → List Char → List String
  | [], acc => [⟨acc.reverse⟩]
  | x :: xs, acc =>
      if x = c then ⟨acc.reverse⟩ :: splitCharAux c xs []
      else splitCharAux c xs (x :: acc)

/-- `strings.Split(s, sep)` for a one-character separator: split on every
occurrence, keeping empty parts; the empty input yields one empty part. -/
def splitChar (c : Char) (s : String) : List String :=
  splitCharAux c s.data []

/-- `strings.HasPrefix`. -/
def strStartsWith (s pre : String) : Bool :=
  pre.data.isPrefixOf s.data

/-- `strings.ToLower`. -/
def strToLower (s : String) : String :=
  ⟨s.data.map Char.toLower⟩

end GoStrings

namespace GoAst

/-- `token.Position` (file name and byte offset omitted; a single file is
modelled at a time). -/
structure Pos where
  line : Nat
  col : Nat
  deriving DecidableEq, Repr

/-- `ast.ObjKind` (`Bad`, `Pkg`, `Con`, `Typ`, `Var`, `Fun`, `Lbl`). -/
inductive ObjKind where
  | bad
  | pkg
  | con
  | typ
  | varKind
  | funKind
  | lbl
  deriving DecidableEq, Repr

/-- The dynamic type of `ident.Obj.Decl` together with the outcome of the
pointer-identity tests `refactoring_tool.go` performs on it:
`ident == parent.Name` for declarations, and for a `*ast.CallExpr` the tests
`ident == fun` (callee identifier) and `ident == fun.Sel` (selector field). -/
inductive DeclRef where
  | funcDecl (isName : Bool)
  | typeSpec (isName : Bool)
  | callIdent (isFun : Bool)
  | callSel (isSel : Bool)
  | callOther
  | assignStmt
  | valueSpec
  | field
  | otherDecl
  deriving DecidableEq, Repr

/-- `ast.Object` as consumed by the classifier helpers. -/
structure Obj where
  kind : ObjKind
  decl : DeclRef
  deriving DecidableEq, Repr

/-- `ast.Ident`.  `obj = none` models `ident.Obj == nil`. -/
structure Ident where
  name : String
  pos : Pos
  obj : Option Obj
  deriving DecidableEq, Repr

mutual
/-- The subset of `ast.Node` the linter and the refactoring tool traverse.
`fieldNode` is `ast.Field` (a named group of a parameter or struct-field
list), `importDecl` is `ast.ImportSpec` (name `none` for an unnamed import;
the stored path is the import path without its surrounding quotes, see
`Linter.trimQuote`). -/
inductive Node where
  | ident (i : Ident)
  | lit (v : String) (pos : Pos)
  | sel (x : Node) (s : Ident)
  | call (fn : Node) (args : NodeList)
  | exprStmt (e : Node)
  | assign (lhs : NodeList) (rhs : NodeList)
  | ret (results : NodeList)
  | block (stmts : NodeList)
  | fieldNode (names : List Ident) (ty : Node)
  | funcDecl (recv : NodeList) (name : Ident) (params : NodeList) (results : NodeList) (body : NodeList)
  | typeDecl (name : Ident) (fields : NodeList)
  | importDecl (name : Option Ident) (path : String) (pos : Pos)
  deriving DecidableEq, Repr

/-- Spine of child-node sequences (kept explicit so traversals are
structural recursions). -/
inductive NodeList where
  | nil
  | cons (n : Node) (ns : NodeList)
  deriving DecidableEq, Repr
end

/-- A parsed file (`ast.File`): package name and top-level declarations. -/
structure File where
  pkgName : String
  decls : List Node
  deriving DecidableEq, Repr

def NodeList.toList : NodeList → List Node
  | .nil => []
  | .cons n ns => n :: ns.toList

def NodeList.ofList : List Node → NodeList
  | [] => .nil
  | n :: ns => .cons n (NodeList.ofList ns)

def NodeList.append : NodeList → NodeList → NodeList
  | .nil, l => l
  | .cons n ns, l => .cons n (ns.append l)

mutual
/-- Rewrite every identifier of the tree with `g`, i.e. the effect of an
`ast.Inspect` pass that may mutate each `*ast.Ident` it visits (the rename
refactorings). -/
def Node.mapIdents (g : Ident → Ident) : Node → Node
  | .ident i => .ident (g i)
  | .lit v p => .lit v p
  | .sel x s => .sel (x.mapIdents g) (g s)
  | .call fn args => .call (fn.mapIdents g) (args.mapIdents g)
  | .exprStmt e => .exprStmt (e.mapIdents g)
  | .assign lhs rhs => .assign (lhs.mapIdents g) (rhs.mapIdents g)
  | .ret rs => .ret (rs.mapIdents g)
  | .block ss => .block (ss.mapIdents g)
  | .fieldNode names ty => .fieldNode (names.map g) (ty.mapIdents g)
  | .funcDecl recv name params results body =>
      .funcDecl (recv.mapIdents g) (g name) (params.mapIdents g) (results.mapIdents g) (body.mapIdents g)
  | .typeDecl name fields => .typeDecl (g name) (fields.mapIdents g)
  | .importDecl name path p => .importDecl (name.map g) path p

def NodeList.mapIdents (g : Ident → Ident) : NodeList → NodeList
  | .nil => .nil
  | .cons n ns => .cons (n.mapIdents g) (ns.mapIdents g)
end

mutual
/-- All `*ast.Ident` occurrences of the tree in pre-order: the identifiers an
`ast.Inspect` callback is invoked on. -/
def Node.collectIdents : Node → List Ident
  | .ident i => [i]
  | .lit _ _ => []
  | .sel x s => x.collectIdents ++ [s]
  | .call fn args => fn.collectIdents ++ args.collectIdents
  | .exprStmt e => e.collectIdents
  | .assign lhs rhs => lhs.collectIdents ++ rhs.collectIdents
  | .ret rs => rs.collectIdents
  | .block ss => ss.collectIdents
  | .fieldNode names ty => names ++ ty.collectIdents
  | .funcDecl recv name params results body =>
      recv.collectIdents ++ [name] ++ params.collectIdents ++ results.collectIdents ++ body.collectIdents
  | .typeDecl name fields => [name] ++ fields.collectIdents
  | .importDecl name _ _ => name.toList

def NodeList.collectIdents : NodeList → List Ident
  | .nil => []
  | .cons n ns => n.collectIdents ++ ns.collectIdents
end

mutual
/-- All nodes of the tree in pre-order (`ast.Inspect` visit order). -/
def Node.allNodes : Node → List Node
  | .ident i => [.ident i]
  | .lit v p => [.lit v p]
  | .sel x s => .sel x s :: x.allNodes
  | .call fn args => .call fn args :: (fn.allNodes ++ args.allNodes)
  | .exprStmt e => .exprStmt e :: e.allNodes
  | .assign lhs rhs => .assign lhs rhs :: (lhs.allNodes ++ rhs.allNodes)
  | .ret rs => .ret rs :: rs.allNodes
  | .block ss => .block ss :: ss.allNodes
  | .fieldNode names ty => .fieldNode names ty :: ty.allNodes
  | .funcDecl recv name params results body =>
      .funcDecl recv name params results body ::
        (recv.allNodes ++ params.allNodes ++ results.allNodes ++ body.allNodes)
  | .typeDecl name fields => .typeDecl name fields :: fields.allNodes
  | .importDecl name path p => [.importDecl name path p]

def NodeList.allNodes : NodeList → List Node
  | .nil => []
  | .cons n ns => n.allNodes ++ ns.allNodes
end

/-- `node.Pos()` for the node shapes whose position the linter reports:
a call's position is its callee's (`CallExpr.Pos() = Fun.Pos()`), a
selector's is its operand's. -/
def Node.posOf : Node → Pos
  | .ident i => i.pos
  | .lit _ p => p
  | .sel x _ => x.posOf
  | .call fn _ => fn.posOf
  | .importDecl _ _ p => p
  | _ => ⟨0, 0⟩

def File.mapIdents (g : Ident → Ident) (f : File) : File :=
  { f with decls := f.decls.map (Node.mapIdents g) }

def File.collectIdents (f : File) : List Ident :=
  f.decls.flatMap Node.collectIdents

def File.allNodes (f : File) : List Node :=
  f.decls.flatMap Node.allNodes

end GoAst

/-!
## `custom_linter.go`

`Issue`, `UnusedImportRule.Check`, `ErrorReturnRule.Check`, `getFunctionName`
and `lintFile` (with the rule registry `main` installs: the unused-import
rule followed by the error-return rule).

The one non-deterministic step of the source is the report loop
`for name, pos := range imports` over a Go map, whose iteration order is
unspecified.  `UnusedImportRule.Check` therefore takes the iteration order
the runtime happened to produce as an explicit argument `ord`; a run of the
real program corresponds to any `ord` that is a permutation of the keys
remaining in the map (`remainingKeys`).
-/

namespace Linter

open GoAst

/-- `Issue` of `custom_linter.go`. -/
structure Issue where
  pos : Pos
  message : String
  severity : String
  deriving DecidableEq, Repr

/-- `strings.Trim(s, "\"")`: remove every leading and trailing quote. -/
def trimQuote (s : String) : String :=
  ⟨((s.toList.dropWhile (· = '"')).reverse.dropWhile (· = '"')).reverse⟩

/-- The import-collection loop of `UnusedImportRule.Check` (lines 44-64):
a named import contributes its name unless it is `_` (blank, skipped) or
`.` (dot import, skipped); an unnamed import contributes the last `/`
component of its quoted path. -/
def importLocalName (name : Option Ident) (path : String) : Option String :=
  match name with
  | some i =>
      if i.name = "_" then none
      else if i.name = "." then none
      else some i.name
  | none => some ((GoStrings.splitChar '/' (trimQuote path)).getLastD "")

/-- The `ast.ImportSpec`s of the file (`file.Imports`). -/
def File.imports (f : File) : List (Option Ident × String × Pos) :=
  f.decls.filterMap fun d =>
    match d with
    | .importDecl name path pos => some (name, path, pos)
    | _ => none

/-- `imports[name] = pos` on a Go map modelled as an insertion-ordered
association list: overwrite the existing entry or append a new one. -/
def insertReplace (m : List (String × Pos)) (k : String) (v : Pos) : List (String × Pos) :=
  if m.any (fun kv => kv.1 == k) then
    m.map (fun kv => if kv.1 == k then (k, v) else kv)
  else
    m ++ [(k, v)]

/-- The `imports` map after the collection loop. -/
def buildImportMap (f : File) : List (String × Pos) :=
  (File.imports f).foldl
    (fun m imp =>
      match importLocalName imp.1 imp.2.1 with
      | none => m
      | some k => insertReplace m k imp.2.2)
    []

/-- `delete(imports, name)` on the association-list model of a Go map. -/
def mapDelete (m : List (String × Pos)) (k : String) : List (String × Pos) :=
  m.filter (fun kv => !(kv.1 == k))

/-- The identifier names the `ast.Inspect` pass of lines 67-87 deletes from
the map: every `*ast.Ident` the traversal visits matches the first branch,
and the base of every qualified access `pkg.X` is itself a visited
identifier, so the `SelectorExpr` branch deletes no additional name. -/
def usedNames (f : File) : List String :=
  (File.collectIdents f).map (·.name)

/-- The `imports` map after the deletion pass. -/
def remainingImports (f : File) : List (String × Pos) :=
  (usedNames f).foldl mapDelete (buildImportMap f)

/-- The keys still in the map when the report loop runs. -/
def remainingKeys (f : File) : List String :=
  (remainingImports f).map (·.1)

/-- `UnusedImportRule.Check`: report one warning per remaining map entry, at
the import's position, in the map-iteration order `ord`. -/
def UnusedImportRule.Check (f : File) (ord : List String) : List Issue :=
  ord.filterMap fun n =>
    ((remainingImports f).find? (fun kv => kv.1 == n)).map fun kv =>
      { pos := kv.2, message := "Unused import: " ++ n, severity := "warning" }

/-- `getFunctionName` of `custom_linter.go` applied to a call's callee. -/
def getFunctionName (fn : Node) : Option String :=
  match fn with
  | .ident i => some i.name
  | .sel x s =>
      match x with
      | .ident xi => some (xi.name ++ "." ++ s.name)
      | _ => some s.name
  | _ => none

/-- The prefix test of `ErrorReturnRule.Check` lines 146-150. -/
def fallibleName (fname : String) : Bool :=
  GoStrings.strStartsWith fname "Create" || GoStrings.strStartsWith fname "New" ||
    GoStrings.strStartsWith fname "Open" || GoStrings.strStartsWith fname "Read" ||
    GoStrings.strStartsWith fname "Write"

/-- The issues `ErrorReturnRule.Check` emits at one visited node. -/
def errorIssuesAt (n : Node) : List Issue :=
  match n with
  | .assign lhs rhs =>
      (NodeList.toList rhs).flatMap fun r =>
        match r with
        | .call _ _ =>
            if (NodeList.toList lhs).length > 1 ∧ (NodeList.toList rhs).length = 1 then
              if (NodeList.toList lhs).length ≥ 2 then
                match (NodeList.toList lhs).getLast? with
                | some (.ident i) =>
                    if i.name = "_" then
                      [{ pos := i.pos, message := "Error is explicitly ignored with _",
                         severity := "warning" }]
                    else []
                | _ => []
              else []
            else []
        | _ => []
  | .exprStmt e =>
      match e with
      | .call fn args =>
          match getFunctionName fn with
          | some fname =>
              if fallibleName fname then
                [{ pos := (Node.call fn args).posOf,
                   message := "Result of " ++ fname ++ " is ignored, but it might return an error",
                   severity := "warning" }]
              else []
          | none => []
      | _ => []
  | _ => []

/-- `ErrorReturnRule.Check`: one `ast.Inspect` pass appending issues in
visit order. -/
def ErrorReturnRule.Check (f : File) : List Issue :=
  (File.allNodes f).flatMap errorIssuesAt

/-- `lintFile` with the registry of `main`
(`[]LintRule{UnusedImportRule{}, ErrorReturnRule{}}`): the issues of each
rule concatenated in registration order. -/
def lintFile (f : File) (ord : List String) : List Issue :=
  UnusedImportRule.Check f ord ++ ErrorReturnRule.Check f

end Linter

/-!
## `refactoring_tool.go`

The classifier helpers `isFunctionIdent` / `isTypeIdent` / `isVarIdent`, the
four refactorings, and the flag validation of `main`.  Each rename is one
`ast.Inspect` pass that overwrites `ident.Name` when the name matches and
the classifier accepts the identifier; `File.mapIdents` applies exactly that
per-identifier update everywhere.  `AddParameter.Apply` edits the matching
`*ast.FuncDecl`s; in a `go/ast` file function declarations occur only among
the top-level declarations (nested functions are `ast.FuncLit`s, a node kind
the tool never produces), so its `ast.Inspect` pass is a map over
`File.decls`.  The `changed` result flag, which no claim concerns, is
omitted.
-/

namespace Refactor

open GoAst

/-- `isFunctionIdent` of `refactoring_tool.go`. -/
def isFunctionIdent (i : Ident) : Bool :=
  match i.obj with
  | none => false
  | some o =>
      match o.kind with
      | .funKind => true
      | _ =>
          match o.decl with
          | .funcDecl isName => isName
          | .callIdent isFun => isFun
          | .callSel isSel => isSel
          | _ => false

/-- `isTypeIdent` of `refactoring_tool.go`. -/
def isTypeIdent (i : Ident) : Bool :=
  match i.obj with
  | none => false
  | some o =>
      match o.kind with
      | .typ => true
      | _ =>
          match o.decl with
          | .typeSpec isName => isName
          | _ => false

/-- `isVarIdent` of `refactoring_tool.go`. -/
def isVarIdent (i : Ident) : Bool :=
  match i.obj with
  | none => false
  | some o =>
      match o.kind with
      | .varKind => true
      | _ =>
          match o.decl with
          | .assignStmt => true
          | .valueSpec => true
          | .field => true
          | _ => false

structure RenameFunction where
  OldName : String
  NewName : String
  deriving DecidableEq, Repr

structure RenameType where
  OldName : String
  NewName : String
  deriving DecidableEq, Repr

structure RenameVariable where
  OldName : String
  NewName : String
  deriving DecidableEq, Repr

structure AddParameter where
  FunctionName : String
  ParamName : String
  ParamType : String
  deriving DecidableEq, Repr

/-- The per-identifier update of `RenameFunction.Apply`. -/
def renameFnIdent (old new : String) (i : Ident) : Ident :=
  if i.name == old then
    if isFunctionIdent i then { i with name := new } else i
  else i

/-- The per-identifier update of `RenameType.Apply`. -/
def renameTypeIdent (old new : String) (i : Ident) : Ident :=
  if i.name == old then
    if isTypeIdent i then { i with name := new } else i
  else i

/-- The per-identifier update of `RenameVariable.Apply`. -/
def renameVarIdent (old new : String) (i : Ident) : Ident :=
  if i.name == old then
    if isVarIdent i then { i with name := new } else i
  else i

def RenameFunction.Apply (r : RenameFunction) (f : File) : File :=
  File.mapIdents (renameFnIdent r.OldName r.NewName) f

def RenameType.Apply (r : RenameType) (f : File) : File :=
  File.mapIdents (renameTypeIdent r.OldName r.NewName) f

def RenameVariable.Apply (r : RenameVariable) (f : File) : File :=
  File.mapIdents (renameVarIdent r.OldName r.NewName) f

/-- The `&ast.Field{Names: []*ast.Ident{ast.NewIdent(name)}, Type:
ast.NewIdent(typ)}` that `AddParameter.Apply` appends (`ast.NewIdent` yields
an identifier with no position and nil `Obj`). -/
def AddParameter.newParam (r : AddParameter) : Node :=
  .fieldNode [{ name := r.ParamName, pos := ⟨0, 0⟩, obj := none }]
    (.ident { name := r.ParamType, pos := ⟨0, 0⟩, obj := none })

/-- The `ast.Inspect` body of `AddParameter.Apply` at one declaration:
append the new parameter field to every function declaration whose name
matches. -/
def AddParameter.editDecl (r : AddParameter) : Node → Node
  | .funcDecl recv name params results body =>
      if name.name == r.FunctionName then
        .funcDecl recv name (params.append (.cons r.newParam .nil)) results body
      else .funcDecl recv name params results body
  | d => d

/-- `AddParameter.Apply`.  In a `go/ast` file every `*ast.FuncDecl` is a
top-level declaration (nested functions are `FuncLit`s), so the
`ast.Inspect` pass is a map over the declaration list. -/
def AddParameter.Apply (r : AddParameter) (f : File) : File :=
  { f with decls := f.decls.map r.editDecl }

/-- The refactorings `main` can register. -/
inductive RefactoringOp where
  | renameFunction (r : RenameFunction)
  | renameType (r : RenameType)
  | renameVariable (r : RenameVariable)
  | addParameter (r : AddParameter)
  deriving DecidableEq, Repr

def RefactoringOp.applyOp : RefactoringOp → File → File
  | .renameFunction r, f => r.Apply f
  | .renameType r, f => r.Apply f
  | .renameVariable r, f => r.Apply f
  | .addParameter r, f => r.Apply f

/-- The `strings.Split(spec, ":")` / `len(parts) != 2` validation `main`
performs for each of `-rename-fn`, `-rename-type` and `-rename-var`. -/
def parseRenamePair (s : String) : Option (String × String) :=
  match GoStrings.splitChar ':' s with
  | [a, b] => some (a, b)
  | _ => none

/-- The `len(parts) != 3` validation of `-add-param`. -/
def parseAddParamSpec (s : String) : Option (String × String × String) :=
  match GoStrings.splitChar ':' s with
  | [a, b, c] => some (a, b, c)
  | _ => none

/-- The flag-validation prefix of `main` (lines 279-333): each non-empty
flag is validated in order and a malformed one aborts the program
(`os.Exit(1)`) before any file is read; with no refactoring specified the
program also aborts. -/
def buildRefactorings (fnSpec tySpec varSpec apSpec : String) :
    Except String (List RefactoringOp) := do
  let r1 ←
    if fnSpec = "" then pure []
    else
      match parseRenamePair fnSpec with
      | some (o, n) => pure [RefactoringOp.renameFunction ⟨o, n⟩]
      | none => throw "Invalid format for -rename-fn, expected old:new"
  let r2 ←
    if tySpec = "" then pure []
    else
      match parseRenamePair tySpec with
      | some (o, n) => pure [RefactoringOp.renameType ⟨o, n⟩]
      | none => throw "Invalid format for -rename-type, expected old:new"
  let r3 ←
    if varSpec = "" then pure []
    else
      match parseRenamePair varSpec with
      | some (o, n) => pure [RefactoringOp.renameVariable ⟨o, n⟩]
      | none => throw "Invalid format for -rename-var, expected old:new"
  let r4 ←
    if apSpec = "" then pure []
    else
      match parseAddParamSpec apSpec with
      | some (fn, nm, ty) => pure [RefactoringOp.addParameter ⟨fn, nm, ty⟩]
      | none => throw "Invalid format for -add-param, expected function:name:type"
  let refs := r1 ++ r2 ++ r3 ++ r4
  if refs.isEmpty then throw "No refactorings specified" else pure refs

/-- `applyRefactorings` for one file: each registered refactoring applied in
order to the shared tree. -/
def applyRefactorings (refs : List RefactoringOp) (f : File) : File :=
  refs.foldl (fun acc r => r.applyOp acc) f

/-- The driver: flag validation, then the per-file refactoring pass.  An
`Except.error` is `os.Exit(1)` before any file is processed. -/
def runTool (fnSpec tySpec varSpec apSpec : String) (files : List File) :
    Except String (List File) := do
  let refs ← buildRefactorings fnSpec tySpec varSpec apSpec
  pure (files.map (applyRefactorings refs))

end Refactor

/-!
## `code_generator.go`

`ExtractStructs` consumes its own parse of the input file; its input is
modelled by `Gen.GoFile`, the shape of `ast.File` the extraction loop
destructures: type `GenDecl`s containing `TypeSpec`s, and `FuncDecl`s with a
receiver.  `GenerateCode` builds a `text/template` whose `FuncMap` registers
`ToLower`, `Title` and `Add` (lines 282-286) and whose text additionally
invokes `GetSQLType` (line 341).  `text/template` resolves function names at
parse time: `tmpl.Parse` fails with `function "GetSQLType" not defined`
because `GetSQLType` is neither in the `FuncMap` nor a predeclared template
function (it is defined nowhere in the repository).  The template text is
modelled by the data the parse-time check consumes — the function
identifiers it invokes, in scan order (`templateFuncRefs`) — plus the
per-struct rendering of the fragments the claims concern (the `NewX`
constructor parameter list, line 315, and the `InsertX` column list,
line 347).
-/

namespace Gen

/-- `FieldInfo` of `code_generator.go` (`Ty` is the source's `Type` field,
whose name Lean reserves). -/
structure FieldInfo where
  Name : String
  Ty : String
  Tag : String
  JSONName : String
  DBName : String
  Comments : List String
  deriving DecidableEq, Repr

/-- `ParamInfo` of `code_generator.go` (`Ty` is the source's `Type` field). -/
structure ParamInfo where
  Name : String
  Ty : String
  deriving DecidableEq, Repr

/-- `MethodInfo` of `code_generator.go`. -/
structure MethodInfo where
  Name : String
  Receiver : String
  Params : List ParamInfo
  Results : List ParamInfo
  Comments : List String
  deriving DecidableEq, Repr

/-- `StructInfo` of `code_generator.go`. -/
structure StructInfo where
  Name : String
  Fields : List FieldInfo
  Methods : List MethodInfo
  Comments : List String
  deriving DecidableEq, Repr

/-- An `ast.Field` of a struct body: name group, formatted type text, raw
tag literal (with backquotes, `none` when absent), doc and line comments. -/
structure GField where
  names : List String
  typeText : String
  tag : Option String
  doc : List String
  comment : List String
  deriving DecidableEq, Repr

/-- The type of an `ast.TypeSpec`: a struct body or any other type. -/
inductive GType where
  | structType (fields : List GField)
  | otherType
  deriving DecidableEq, Repr

/-- An `ast.TypeSpec`. -/
structure GSpec where
  name : String
  ty : GType
  deriving DecidableEq, Repr

/-- The receiver type of a method declaration: `*T`, `T`, or another shape
(which the extraction skips). -/
inductive GRecv where
  | star (name : String)
  | ident (name : String)
  | other
  deriving DecidableEq, Repr

/-- A name group of a parameter or result list. -/
structure GParam where
  names : List String
  typeText : String
  deriving DecidableEq, Repr

/-- A top-level declaration as `ExtractStructs` destructures it. -/
inductive GDecl where
  | genDeclType (doc : List String) (specs : List GSpec)
  | genDeclOther
  | funcDecl (recv : Option GRecv) (name : String) (params : List GParam)
      (results : List GParam) (doc : List String)
  deriving DecidableEq, Repr

/-- The parsed input file of `ExtractStructs`. -/
structure GoFile where
  pkgName : String
  decls : List GDecl
  deriving DecidableEq, Repr

/-- `strings.Trim(s, c)` for a single trim character. -/
def trimChar (c : Char) (s : String) : String :=
  ⟨((s.toList.dropWhile (· = c)).reverse.dropWhile (· = c)).reverse⟩

/-- `extractTagValue` of `code_generator.go`. -/
def extractTagValue (tag key : String) : String :=
  let tag := trimChar '`' tag
  let keyPat := key ++ ":"
  match (GoStrings.splitChar ' ' tag).find?
      (fun part => GoStrings.strStartsWith part keyPat) with
  | some part =>
      let value := part.drop keyPat.length
      let value := trimChar '"' value
      (GoStrings.splitChar ',' value).headD ""
  | none => ""

/-- The per-field body of the extraction loop (lines 96-149): embedded
fields (empty name group) are skipped, a named group contributes one
`FieldInfo` bearing the group's first name, with tag-derived (or
lower-cased) JSON and DB names. -/
def fieldInfoOf (field : GField) : Option FieldInfo :=
  match field.names with
  | [] => none
  | fieldName :: _ =>
      let jsonName :=
        match field.tag with
        | some t =>
            let j := extractTagValue t "json"
            if j = "" then GoStrings.strToLower fieldName else j
        | none => GoStrings.strToLower fieldName
      let dbName :=
        match field.tag with
        | some t =>
            let d := extractTagValue t "db"
            if d = "" then GoStrings.strToLower fieldName else d
        | none => GoStrings.strToLower fieldName
      some
        { Name := fieldName, Ty := field.typeText, Tag := field.tag.getD "",
          JSONName := jsonName, DBName := dbName,
          Comments := field.doc ++ field.comment }

/-- The struct-spec body of the extraction loop: only `TypeSpec`s whose type
is a struct yield a `StructInfo`. -/
def structInfoOfSpec (doc : List String) (sp : GSpec) : Option StructInfo :=
  match sp.ty with
  | .structType fields =>
      some { Name := sp.name, Fields := fields.filterMap fieldInfoOf,
             Methods := [], Comments := doc }
  | .otherType => none

/-- Receiver-type-name resolution (lines 164-172): `""` when the receiver is
neither `*T` nor `T`. -/
def recvTypeName : GRecv → String
  | .star n => n
  | .ident n => n
  | .other => ""

/-- `FormatNode(fset, recv.Type)`. -/
def recvText : GRecv → String
  | .star n => "*" ++ n
  | .ident n => n
  | .other => ""

/-- Parameter extraction (lines 179-192): one `ParamInfo` per name of each
group. -/
def paramInfos (ps : List GParam) : List ParamInfo :=
  ps.flatMap fun p => p.names.map fun nm => { Name := nm, Ty := p.typeText }

/-- Result extraction (lines 194-215): unnamed result groups contribute one
anonymous `ParamInfo`. -/
def resultInfos (ps : List GParam) : List ParamInfo :=
  ps.flatMap fun p =>
    if p.names.isEmpty then [{ Name := "", Ty := p.typeText }]
    else p.names.map fun nm => { Name := nm, Ty := p.typeText }

/-- One iteration of the declaration loop of `ExtractStructs`: a type
`GenDecl` appends the structs of its specs; a method declaration attaches a
`MethodInfo` to every already-collected struct whose name matches its
receiver type. -/
def processDecl (structs : List StructInfo) (d : GDecl) : List StructInfo :=
  match d with
  | .genDeclType doc specs => structs ++ specs.filterMap (structInfoOfSpec doc)
  | .funcDecl (some recv) name params results doc =>
      let recvType := recvTypeName recv
      if recvType = "" then structs
      else
        structs.map fun s =>
          if s.Name = recvType then
            { s with
              Methods := s.Methods ++
                [{ Name := name, Receiver := recvText recv,
                   Params := paramInfos params, Results := resultInfos results,
                   Comments := doc }] }
          else s
  | _ => structs

/-- `ExtractStructs` (the parse step, out of scope, is assumed to have
produced `f`): the struct list and the package name. -/
def ExtractStructs (f : GoFile) : List StructInfo × String :=
  (f.decls.foldl processDecl [], f.pkgName)

/-- The helper functions registered in the template's `FuncMap`
(lines 282-286). -/
def templateFuncMap : List String := ["ToLower", "Title", "Add"]

/-- The functions predeclared by `text/template`. -/
def templateBuiltins : List String :=
  ["and", "call", "html", "index", "slice", "js", "len", "not", "or",
   "print", "printf", "println", "urlquery",
   "eq", "ge", "gt", "le", "lt", "ne"]

/-- The identifiers `tmplText` (lines 289-391) uses in function position, in
scan order: the three `{{if and (eq ...) (ne ...)}}` headers of the JSON,
methods and SQLite sections, then `ToLower`/`GetSQLType` in the SQLite
section bodies. -/
def templateFuncRefs : List String :=
  ["and", "eq", "ne",
   "and", "eq", "ne",
   "and", "eq", "ne",
   "ToLower", "GetSQLType", "ToLower", "ToLower", "ToLower", "ToLower"]

/-- The function-resolution step of `tmpl.Parse`: the first identifier in
function position that is neither in the `FuncMap` nor predeclared makes
parsing fail with `function "name" not defined`. -/
def templateParseCheck : Except String Unit :=
  match templateFuncRefs.find?
      (fun fn => !(templateFuncMap.contains fn || templateBuiltins.contains fn)) with
  | some fn => .error ("function \x22" ++ fn ++ "\x22 not defined")
  | none => .ok ()

/-- The generation toggles (`-methods`, `-json`, `-sqlite` flags). -/
structure GenOptions where
  genMethods : Bool
  genJSON : Bool
  genSQLite : Bool
  deriving DecidableEq, Repr

/-- The `NewX` constructor parameter list of the template (line 315):
`{{range $i, $f := .Fields}}{{if $i}}, {{end}}{{$f.Name}} {{$f.Type}}{{end}}`,
rendered as the index-tracking fold `text/template` evaluates. -/
def renderConstructorParams (s : StructInfo) : String :=
  (s.Fields.foldl
      (fun (acc : String × Nat) f =>
        ((if acc.2 ≠ 0 then acc.1 ++ ", " else acc.1) ++ f.Name ++ " " ++ f.Ty,
         acc.2 + 1))
      ("", 0)).1

/-- The `InsertX` column list of the template (line 347):
`{{range $i, $f := .Fields}}{{if $i}}, {{end}}{{$f.DBName}}{{end}}`. -/
def renderInsertColumns (s : StructInfo) : String :=
  (s.Fields.foldl
      (fun (acc : String × Nat) f =>
        ((if acc.2 ≠ 0 then acc.1 ++ ", " else acc.1) ++ f.DBName, acc.2 + 1))
      ("", 0)).1

/-- A rendering of the reachable per-struct fragments; `tmpl.Execute` is
never reached because `tmpl.Parse` fails, so only the fragments above are
load-bearing. -/
def renderStruct (opts : GenOptions) (s : StructInfo) : String :=
  (if opts.genMethods then
    "func New" ++ s.Name ++ "(" ++ renderConstructorParams s ++ ") *" ++ s.Name ++ "\n"
  else "") ++
  (if opts.genSQLite then
    "INSERT INTO " ++ GoStrings.strToLower s.Name ++ " (" ++ renderInsertColumns s ++ ")\n"
  else "")

/-- `GenerateCode`: package-name override from the `-package` flag, then
template construction.  `tmpl.Parse` runs before any struct is rendered and
its error is returned as `failed to parse template: ...` with empty output
(line 396). -/
def GenerateCode (structs : List StructInfo) (pkgName : String) (pkgFlag : String)
    (opts : GenOptions) : Except String String :=
  let pkg := if pkgFlag ≠ "" then pkgFlag else pkgName
  match templateParseCheck with
  | .error e => .error ("failed to parse template: " ++ e)
  | .ok _ =>
      .ok ((structs.map (renderStruct opts)).foldl (· ++ ·)
        ("package " ++ pkg ++ "\n"))

end Gen

/-!
## Observable projections and concrete inputs

Projections of trees and extraction results that the claims quantify over,
plus the concrete inputs used by counterexamples and witnesses.
-/

namespace GoAst

/-- Whether a node is a `*ast.CallExpr`. -/
def Node.isCall : Node → Bool
  | .call _ _ => true
  | _ => false

/-- Every call expression of the file (each with its whole subtree), in
visit order. -/
def File.callNodes (f : File) : List Node :=
  (File.allNodes f).filter Node.isCall

end GoAst

namespace Refactor

open GoAst

/-- An identifier that is the declaration of, or a resolved use of, a type:
the parser gives both the declaration name and every use the declaration's
object, of kind `Typ` with the `*ast.TypeSpec` as its `Decl`. -/
def isTypeUse (i : Ident) : Bool :=
  match i.obj with
  | some o =>
      match o.kind, o.decl with
      | .typ, .typeSpec _ => true
      | _, _ => false
  | none => false

/-- The type-declaration and type-use identifiers of the file, in visit
order. -/
def typeUses (f : File) : List Ident :=
  (File.collectIdents f).filter isTypeUse

/-- The file declares a type named `old`. -/
def hasTypeDeclNamed (old : String) (f : File) : Bool :=
  f.decls.any fun d =>
    match d with
    | .typeDecl name _ => name.name == old
    | _ => false

/-- Whether a top-level declaration is a function declaration named `fn`. -/
def isFuncDeclNamed (fn : String) : Node → Bool
  | .funcDecl _ name _ _ _ => name.name == fn
  | _ => false

/-- The parameter list of a declaration when it is a function declaration
named `fn`. -/
def paramExtract (fn : String) : Node → Option NodeList
  | .funcDecl _ name params _ _ => if name.name == fn then some params else none
  | _ => none

/-- The parameter lists of the function declarations named `fn`, in
declaration order. -/
def funcParamsOf (fn : String) (f : File) : List NodeList :=
  f.decls.filterMap (paramExtract fn)

/-- The top-level declarations that are not function declarations named
`fn`. -/
def nonMatchingDecls (fn : String) (f : File) : List Node :=
  f.decls.filter fun d => !(isFuncDeclNamed fn d)

end Refactor

namespace Gen

/-- Comma-separated join (head, then each tail element after `", "`): the
order-exposing form the template's index-tracking folds are proved equal
to. -/
def commaSeparated : List String → String
  | [] => ""
  | x :: xs => xs.foldl (fun acc it => acc ++ ", " ++ it) x

/-- The struct bodies of the file's type declarations, in declaration
order. -/
def structBodies (f : GoFile) : List (List GField) :=
  f.decls.flatMap fun d =>
    match d with
    | .genDeclType _ specs =>
        specs.filterMap fun sp =>
          match sp.ty with
          | .structType fields => some fields
          | .otherType => none
    | _ => []

/-- Per struct, every name of every non-embedded field group, in source
order: the fields the language declares, embedded/anonymous ones skipped
(the claim's reading of "the fields declared in the source struct"). -/
def declaredStructAllNames (f : GoFile) : List (List String) :=
  (structBodies f).map fun fields =>
    (fields.filter (fun fl => !fl.names.isEmpty)).flatMap (·.names)

/-- Per struct, the first name of every non-embedded field group, in source
order: what the extraction loop actually keeps. -/
def declaredStructFirstNames (f : GoFile) : List (List String) :=
  (structBodies f).map fun fields =>
    (fields.filter (fun fl => !fl.names.isEmpty)).map (·.names.headD "")

end Gen

/-!
### Concrete inputs for counterexamples and witnesses
-/

namespace Examples

open GoAst

/-- A file importing `fmt` and `os` and using neither: two entries remain
in the unused-import map, so the report order is observable. -/
def twoUnusedFile : File :=
  { pkgName := "main",
    decls := [.importDecl none "fmt" ⟨3, 2⟩, .importDecl none "os" ⟨4, 2⟩] }

/-- A file importing `fmt` and `os` where a body expression uses `fmt` (as
the base of `fmt.Println()`) exactly once. -/
def usedImportFile : File :=
  { pkgName := "main",
    decls :=
      [.importDecl none "fmt" ⟨3, 2⟩,
       .importDecl none "os" ⟨4, 2⟩,
       .funcDecl .nil
         { name := "main", pos := ⟨6, 6⟩,
           obj := some { kind := .funKind, decl := .funcDecl true } }
         .nil .nil
         (.cons
           (.exprStmt
             (.call
               (.sel (.ident { name := "fmt", pos := ⟨7, 2⟩, obj := none })
                 { name := "Println", pos := ⟨7, 6⟩, obj := none })
               .nil))
           .nil)] }

/-- A file with an aliased import `foo "pkg/bar"` whose alias occurs nowhere
else. -/
def aliasImportFile : File :=
  { pkgName := "main",
    decls :=
      [.importDecl (some { name := "foo", pos := ⟨3, 2⟩, obj := none })
        "pkg/bar" ⟨3, 2⟩] }

/-- A file declaring a type `T` and separately assigning to a variable also
named `T`: rename-variable on `T` changes the variable occurrence but must
not touch the type identifiers. -/
def typeAndVarFile : File :=
  { pkgName := "main",
    decls :=
      [.typeDecl
        { name := "T", pos := ⟨3, 6⟩,
          obj := some { kind := .typ, decl := .typeSpec true } }
        .nil,
       .funcDecl .nil
         { name := "main", pos := ⟨5, 6⟩,
           obj := some { kind := .funKind, decl := .funcDecl true } }
         .nil .nil
         (.cons
           (.assign
             (.cons
               (.ident
                 { name := "T", pos := ⟨6, 2⟩,
                   obj := some { kind := .varKind, decl := .assignStmt } })
               .nil)
             (.cons (.lit "1" ⟨6, 7⟩) .nil))
           .nil)] }

/-- A file whose only declaration is a function named `g`:
`rename-function(f,g)` finds nothing, and the subsequent
`rename-function(g,f)` renames `g` — the round trip does not restore the
tree. -/
def funcGFile : File :=
  { pkgName := "main",
    decls :=
      [.funcDecl .nil
        { name := "g", pos := ⟨3, 6⟩,
          obj := some { kind := .funKind, decl := .funcDecl true } }
        .nil .nil .nil] }

/-- A file declaring a function `f` and calling it once; no identifier of
the file is a function identifier named `g`. -/
def funcFFile : File :=
  { pkgName := "main",
    decls :=
      [.funcDecl .nil
        { name := "f", pos := ⟨3, 6⟩,
          obj := some { kind := .funKind, decl := .funcDecl true } }
        .nil .nil
        (.cons
          (.exprStmt
            (.call
              (.ident
                { name := "f", pos := ⟨4, 2⟩,
                  obj := some { kind := .funKind, decl := .funcDecl false } })
              .nil))
          .nil)] }

/-- An arbitrary file for driver-level statements. -/
def plainFile : File := { pkgName := "main", decls := [] }

/-- The input shape `{id uint64, name string, active bool}` of the SQL
generation claim, as `ExtractStructs` would see it. -/
def userShapeFile : Gen.GoFile :=
  { pkgName := "main",
    decls :=
      [.genDeclType []
        [{ name := "User",
           ty := .structType
             [{ names := ["id"], typeText := "uint64", tag := none, doc := [], comment := [] },
              { names := ["name"], typeText := "string", tag := none, doc := [], comment := [] },
              { names := ["active"], typeText := "bool", tag := none, doc := [], comment := [] }] }]] }

/-- A struct with a multi-name field group `a, b int`. -/
def multiNameFile : Gen.GoFile :=
  { pkgName := "p",
    decls :=
      [.genDeclType []
        [{ name := "T",
           ty := .structType
             [{ names := ["a", "b"], typeText := "int", tag := none, doc := [], comment := [] }] }]] }

/-- A file with two structs and a method, for the field-order witness. -/
def orderWitnessFile : Gen.GoFile :=
  { pkgName := "p",
    decls :=
      [.genDeclType []
        [{ name := "Pt",
           ty := .structType
             [{ names := ["x"], typeText := "float64", tag := none, doc := [], comment := [] },
              { names := ["y"], typeText := "float64", tag := none, doc := [], comment := [] }] }],
       .funcDecl (some (.star "Pt")) "Reset" [] [] [],
       .genDeclType []
        [{ name := "Box",
           ty := .structType
             [{ names := [], typeText := "Pt", tag := none, doc := [], comment := [] },
              { names := ["w"], typeText := "int",
                tag := some "`json:\x22width\x22`", doc := [], comment := [] }] }]] }

end Examples

/-!
## Lemmas

Structural facts about the traversals, the association-list model of the Go
map, and the template folds.  Claim theorems follow at the end.
-/

namespace GoAst

theorem NodeList.allNodes_append : ∀ (l1 l2 : NodeList),
    (l1.append l2).allNodes = l1.allNodes ++ l2.allNodes
  | .nil, l2 => by simp [NodeList.append, NodeList.allNodes]
  | .cons n ns, l2 => by
      simp [NodeList.append, NodeList.allNodes, NodeList.allNodes_append ns l2]

mutual
theorem Node.collectIdents_mapIdents (g : Ident → Ident) (n : Node) :
    (n.mapIdents g).collectIdents = n.collectIdents.map g := by
  cases n with
  | ident i => simp [Node.mapIdents, Node.collectIdents]
  | lit v p => simp [Node.mapIdents, Node.collectIdents]
  | sel x s =>
      simp [Node.mapIdents, Node.collectIdents, Node.collectIdents_mapIdents g x]
  | call fn args =>
      simp [Node.mapIdents, Node.collectIdents, Node.collectIdents_mapIdents g fn,
        NodeList.collectIdents_mapIdents_list g args]
  | exprStmt e =>
      simp [Node.mapIdents, Node.collectIdents, Node.collectIdents_mapIdents g e]
  | assign lhs rhs =>
      simp [Node.mapIdents, Node.collectIdents, NodeList.collectIdents_mapIdents_list g lhs,
        NodeList.collectIdents_mapIdents_list g rhs]
  | ret rs =>
      simp [Node.mapIdents, Node.collectIdents, NodeList.collectIdents_mapIdents_list g rs]
  | block ss =>
      simp [Node.mapIdents, Node.collectIdents, NodeList.collectIdents_mapIdents_list g ss]
  | fieldNode names ty =>
      simp [Node.mapIdents, Node.collectIdents, Node.collectIdents_mapIdents g ty]
  | funcDecl recv name params results body =>
      simp [Node.mapIdents, Node.collectIdents, NodeList.collectIdents_mapIdents_list g recv,
        NodeList.collectIdents_mapIdents_list g params, NodeList.collectIdents_mapIdents_list g results,
        NodeList.collectIdents_mapIdents_list g body]
  | typeDecl name fields =>
      simp [Node.mapIdents, Node.collectIdents, NodeList.collectIdents_mapIdents_list g fields]
  | importDecl name path p =>
      cases name <;> simp [Node.mapIdents, Node.collectIdents]

theorem NodeList.collectIdents_mapIdents_list (g : Ident → Ident) (ns : NodeList) :
    (ns.mapIdents g).collectIdents = ns.collectIdents.map g := by
  cases ns with
  | nil => simp [NodeList.mapIdents, NodeList.collectIdents]
  | cons n ns' =>
      simp [NodeList.mapIdents, NodeList.collectIdents, Node.collectIdents_mapIdents g n,
        NodeList.collectIdents_mapIdents_list g ns']
end

theorem list_map_roundtrip {α : Type} (g₁ g₂ : α → α) (l : List α)
    (h : ∀ a ∈ l, g₂ (g₁ a) = a) : (l.map g₁).map g₂ = l := by
  rw [List.map_map]
  exact (List.map_congr_left h).trans (List.map_id l)

mutual
theorem Node.mapIdents_roundtrip (g₁ g₂ : Ident → Ident) (n : Node)
    (h : ∀ i ∈ n.collectIdents, g₂ (g₁ i) = i) : (n.mapIdents g₁).mapIdents g₂ = n := by
  cases n with
  | ident i =>
      simp only [Node.collectIdents, List.mem_singleton] at h
      simp [Node.mapIdents, h i rfl]
  | lit v p => simp [Node.mapIdents]
  | sel x s =>
      simp only [Node.collectIdents, List.mem_append, List.mem_singleton] at h
      simp [Node.mapIdents, h s (Or.inr rfl),
        Node.mapIdents_roundtrip g₁ g₂ x (fun i hi => h i (Or.inl hi))]
  | call fn args =>
      simp only [Node.collectIdents, List.mem_append] at h
      simp [Node.mapIdents, Node.mapIdents_roundtrip g₁ g₂ fn (fun i hi => h i (Or.inl hi)),
        NodeList.mapIdents_roundtrip_list g₁ g₂ args (fun i hi => h i (Or.inr hi))]
  | exprStmt e =>
      simp only [Node.collectIdents] at h
      simp [Node.mapIdents, Node.mapIdents_roundtrip g₁ g₂ e h]
  | assign lhs rhs =>
      simp only [Node.collectIdents, List.mem_append] at h
      simp [Node.mapIdents, NodeList.mapIdents_roundtrip_list g₁ g₂ lhs (fun i hi => h i (Or.inl hi)),
        NodeList.mapIdents_roundtrip_list g₁ g₂ rhs (fun i hi => h i (Or.inr hi))]
  | ret rs =>
      simp only [Node.collectIdents] at h
      simp [Node.mapIdents, NodeList.mapIdents_roundtrip_list g₁ g₂ rs h]
  | block ss =>
      simp only [Node.collectIdents] at h
      simp [Node.mapIdents, NodeList.mapIdents_roundtrip_list g₁ g₂ ss h]
  | fieldNode names ty =>
      simp only [Node.collectIdents, List.mem_append] at h
      simp [Node.mapIdents, Node.mapIdents_roundtrip g₁ g₂ ty (fun i hi => h i (Or.inr hi)),
        list_map_roundtrip g₁ g₂ names (fun i hi => h i (Or.inl hi))]
  | funcDecl recv name params results body =>
      simp only [Node.collectIdents, List.mem_append, List.mem_singleton] at h
      simp [Node.mapIdents,
        NodeList.mapIdents_roundtrip_list g₁ g₂ recv (fun i hi => h i (by tauto)),
        h name (by tauto),
        NodeList.mapIdents_roundtrip_list g₁ g₂ params (fun i hi => h i (by tauto)),
        NodeList.mapIdents_roundtrip_list g₁ g₂ results (fun i hi => h i (by tauto)),
        NodeList.mapIdents_roundtrip_list g₁ g₂ body (fun i hi => h i (by tauto))]
  | typeDecl name fields =>
      simp only [Node.collectIdents, List.mem_append, List.mem_singleton, List.mem_cons] at h
      simp [Node.mapIdents, h name (by tauto),
        NodeList.mapIdents_roundtrip_list g₁ g₂ fields (fun i hi => h i (by tauto))]
  | importDecl name path p =>
      cases name with
      | none => simp [Node.mapIdents]
      | some i =>
          simp only [Node.collectIdents, Option.toList_some, List.mem_singleton] at h
          simp [Node.mapIdents, h i rfl]

theorem NodeList.mapIdents_roundtrip_list (g₁ g₂ : Ident → Ident) (ns : NodeList)
    (h : ∀ i ∈ ns.collectIdents, g₂ (g₁ i) = i) : (ns.mapIdents g₁).mapIdents g₂ = ns := by
  cases ns with
  | nil => simp [NodeList.mapIdents]
  | cons n ns' =>
      simp only [NodeList.collectIdents, List.mem_append] at h
      simp [NodeList.mapIdents, Node.mapIdents_roundtrip g₁ g₂ n (fun i hi => h i (Or.inl hi)),
        NodeList.mapIdents_roundtrip_list g₁ g₂ ns' (fun i hi => h i (Or.inr hi))]
end

theorem File.collectIdents_mapIdents_file (g : Ident → Ident) (f : File) :
    (File.mapIdents g f).collectIdents = f.collectIdents.map g := by
  simp [File.mapIdents, File.collectIdents, List.flatMap_map, List.map_flatMap]
  congr 1
  funext d
  exact Node.collectIdents_mapIdents g d

theorem File.mapIdents_roundtrip_file (g₁ g₂ : Ident → Ident) (f : File)
    (h : ∀ i ∈ f.collectIdents, g₂ (g₁ i) = i) :
    File.mapIdents g₂ (File.mapIdents g₁ f) = f := by
  simp only [File.mapIdents, List.map_map]
  have hd : ∀ d ∈ f.decls, (Node.mapIdents g₂ ∘ Node.mapIdents g₁) d = d := by
    intro d hd
    exact Node.mapIdents_roundtrip g₁ g₂ d (fun i hi => h i (by
      simp only [File.collectIdents, List.mem_flatMap]
      exact ⟨d, hd, hi⟩))
  cases f with
  | mk pkg decls =>
      simp only
      congr 1
      exact List.map_congr_left hd |>.trans (List.map_id decls)

end GoAst

namespace Linter

open GoAst

theorem string_append_right_cancel {s a b : String} (h : s ++ a = s ++ b) : a = b := by
  apply String.ext
  have hd := congrArg String.data h
  simp only [String.data_append] at hd
  exact List.append_inj_right hd rfl

theorem foldl_mapDelete_eq_filter (names : List String) :
    ∀ m : List (String × Pos),
      names.foldl mapDelete m = m.filter (fun kv => !names.contains kv.1) := by
  induction names with
  | nil =>
      intro m
      simp [mapDelete]
  | cons n ns ih =>
      intro m
      simp only [List.foldl_cons]
      rw [ih (mapDelete m n)]
      simp only [mapDelete, List.filter_filter]
      apply List.filter_congr
      intro kv _
      by_cases hkn : kv.1 = n <;> simp [hkn]

theorem find?_remaining_eq_none {f : File} {n : String} (hn : n ∈ usedNames f) :
    (remainingImports f).find? (fun kv => kv.1 == n) = none := by
  rw [remainingImports, foldl_mapDelete_eq_filter]
  apply List.find?_eq_none.2
  intro kv hkv hbeq
  have hp := (List.mem_filter.1 hkv).2
  have hkvn : kv.1 = n := by simpa using hbeq
  rw [hkvn] at hp
  simp only [Bool.not_eq_true'] at hp
  exact absurd hn (by simpa using hp)

/-- Shared core of the unused-import claims: a name the deletion pass
removed is never the subject of a reported issue. -/
theorem unused_check_no_issue_for_used (f : File) (ord : List String) (n : String)
    (hn : n ∈ usedNames f) :
    (UnusedImportRule.Check f ord).filter
      (fun iss => iss.message == "Unused import: " ++ n) = [] := by
  apply List.filter_eq_nil_iff.2
  intro iss hiss hmsg
  rcases List.mem_filterMap.1 hiss with ⟨n', _hn', heq⟩
  cases hfind : (remainingImports f).find? (fun kv => kv.1 == n') with
  | none => rw [hfind] at heq; cases heq
  | some kv =>
      rw [hfind] at heq
      have hiss' : iss =
          { pos := kv.2, message := "Unused import: " ++ n', severity := "warning" } := by
        cases heq; rfl
      have hmsg' : "Unused import: " ++ n' = "Unused import: " ++ n := by
        rw [hiss'] at hmsg
        simpa using hmsg
      have hn'n : n' = n := string_append_right_cancel hmsg'
      rw [hn'n, find?_remaining_eq_none hn] at hfind
      cases hfind

theorem check_empty_of_no_remaining {f : File} (h : remainingImports f = [])
    (ord : List String) : UnusedImportRule.Check f ord = [] := by
  apply List.eq_nil_iff_forall_not_mem.2
  intro iss hiss
  rcases List.mem_filterMap.1 hiss with ⟨n', _hn', heq⟩
  rw [h] at heq
  simp at heq

end Linter

namespace Gen

theorem renderConstructorParams_foldl_aux (fs : List FieldInfo) :
    ∀ (acc : String) (k : Nat),
      (fs.foldl
          (fun (acc : String × Nat) f =>
            ((if acc.2 ≠ 0 then acc.1 ++ ", " else acc.1) ++ f.Name ++ " " ++ f.Ty,
             acc.2 + 1))
          (acc, k + 1)).1 =
        fs.foldl (fun a f => a ++ ", " ++ f.Name ++ " " ++ f.Ty) acc := by
  induction fs with
  | nil => intro acc k; rfl
  | cons f fs ih =>
      intro acc k
      simp only [List.foldl_cons, if_pos (Nat.succ_ne_zero k)]
      exact ih (acc ++ ", " ++ f.Name ++ " " ++ f.Ty) (k + 1)

/-- The constructor parameter list renders the fields head-to-tail with
`", "` separators: names and types appear in `Fields` order. -/
theorem renderConstructorParams_eq (s : StructInfo) :
    renderConstructorParams s =
      commaSeparated (s.Fields.map fun f => f.Name ++ " " ++ f.Ty) := by
  unfold renderConstructorParams commaSeparated
  cases hf : s.Fields with
  | nil => rfl
  | cons f fs =>
      simp only [List.foldl_cons, List.map_cons, if_neg (by simp : ¬(0 : Nat) ≠ 0)]
      rw [renderConstructorParams_foldl_aux fs (("" : String) ++ f.Name ++ " " ++ f.Ty) 0]
      rw [show ("" : String) ++ f.Name = f.Name from rfl, List.foldl_map]
      apply List.foldl_ext
      intro a fl _
      simp [String.append_assoc]

theorem renderInsertColumns_foldl_aux (fs : List FieldInfo) :
    ∀ (acc : String) (k : Nat),
      (fs.foldl
          (fun (acc : String × Nat) f =>
            ((if acc.2 ≠ 0 then acc.1 ++ ", " else acc.1) ++ f.DBName, acc.2 + 1))
          (acc, k + 1)).1 =
        fs.foldl (fun a f => a ++ ", " ++ f.DBName) acc := by
  induction fs with
  | nil => intro acc k; rfl
  | cons f fs ih =>
      intro acc k
      simp only [List.foldl_cons, if_pos (Nat.succ_ne_zero k)]
      exact ih (acc ++ ", " ++ f.DBName) (k + 1)

/-- The `InsertX` column list renders the DB names in `Fields` order. -/
theorem renderInsertColumns_eq (s : StructInfo) :
    renderInsertColumns s = commaSeparated (s.Fields.map (·.DBName)) := by
  unfold renderInsertColumns commaSeparated
  cases hf : s.Fields with
  | nil => rfl
  | cons f fs =>
      simp only [List.foldl_cons, List.map_cons, if_neg (by simp : ¬(0 : Nat) ≠ 0)]
      rw [renderInsertColumns_foldl_aux fs (("" : String) ++ f.DBName) 0]
      rw [show ("" : String) ++ f.DBName = f.DBName from rfl, List.foldl_map]

/-- One `FieldInfo` per named group, bearing the group's first name. -/
theorem fieldInfo_names (fields : List GField) :
    (fields.filterMap fieldInfoOf).map (·.Name) =
      (fields.filter fun fl => !fl.names.isEmpty).map fun fl => fl.names.headD "" := by
  induction fields with
  | nil => rfl
  | cons fl fls ih =>
      cases hnm : fl.names with
      | nil =>
          simp only [List.filterMap_cons, List.filter_cons, fieldInfoOf, hnm]
          simpa using ih
      | cons nm rest =>
          simp only [List.filterMap_cons, List.filter_cons, fieldInfoOf, hnm]
          simp only [List.isEmpty_cons, Bool.not_false, if_true]
          simp only [List.map_cons, List.headD_cons]
          rw [ih]
          simp [hnm]

/-- A method attachment never changes any struct's field list. -/
theorem processDecl_names (acc : List StructInfo) (d : GDecl) :
    ((processDecl acc d).map fun s => s.Fields.map (·.Name)) =
      (acc.map fun s => s.Fields.map (·.Name)) ++
        declaredStructFirstNames { pkgName := "", decls := [d] } := by
  cases d with
  | genDeclType doc specs =>
      simp only [processDecl, declaredStructFirstNames, structBodies, List.flatMap_cons,
        List.flatMap_nil, List.append_nil, List.map_append]
      congr 1
      induction specs with
      | nil => rfl
      | cons sp sps ihs =>
          cases hty : sp.ty with
          | structType fields =>
              simp only [List.filterMap_cons, structInfoOfSpec, hty, List.map_cons]
              rw [ihs]
              simp [fieldInfo_names fields]
          | otherType =>
              simp only [List.filterMap_cons, structInfoOfSpec, hty]
              exact ihs
  | genDeclOther =>
      simp [processDecl, declaredStructFirstNames, structBodies]
  | funcDecl orecv name params results doc =>
      cases orecv with
      | none => simp [processDecl, declaredStructFirstNames, structBodies]
      | some recv =>
          simp only [processDecl, declaredStructFirstNames, structBodies, List.flatMap_cons,
            List.flatMap_nil, List.append_nil, List.map_nil, List.append_nil]
          by_cases hr : recvTypeName recv = ""
          · simp [hr]
          · rw [if_neg hr, List.map_map]
            apply List.map_congr_left
            intro s _
            by_cases hs : s.Name = recvTypeName recv <;> simp [Function.comp, hs]

theorem foldl_processDecl_names (decls : List GDecl) :
    ∀ acc : List StructInfo,
      ((decls.foldl processDecl acc).map fun s => s.Fields.map (·.Name)) =
        (acc.map fun s => s.Fields.map (·.Name)) ++
          declaredStructFirstNames { pkgName := "", decls := decls } := by
  induction decls with
  | nil =>
      intro acc
      simp [declaredStructFirstNames, structBodies]
  | cons d ds ih =>
      intro acc
      simp only [List.foldl_cons]
      rw [ih (processDecl acc d), processDecl_names acc d]
      simp [declaredStructFirstNames, structBodies, List.flatMap_cons, List.map_append,
        List.append_assoc]

/-- Extraction keeps, per struct, the first name of every named field group,
in declaration order. -/
theorem extractStructs_names (f : GoFile) :
    (((ExtractStructs f).1).map fun s => s.Fields.map (·.Name)) =
      declaredStructFirstNames f := by
  have h := foldl_processDecl_names f.decls []
  simp only [List.map_nil, List.nil_append] at h
  unfold ExtractStructs
  rw [h]
  cases f with
  | mk pkg decls => rfl

end Gen

namespace Refactor

open GoAst

theorem isFunctionIdent_set_name (i : Ident) (x : String) :
    isFunctionIdent { i with name := x } = isFunctionIdent i := by
  cases i; rfl

theorem isTypeUse_set_name (i : Ident) (x : String) :
    isTypeUse { i with name := x } = isTypeUse i := by
  cases i; rfl

theorem isVarIdent_eq_false_of_isTypeUse (i : Ident) (h : isTypeUse i = true) :
    isVarIdent i = false := by
  obtain ⟨nm, pos, obj⟩ := i
  match obj with
  | none => exact absurd h (by simp [isTypeUse])
  | some ⟨k, d⟩ => cases k <;> cases d <;> simp_all [isTypeUse, isVarIdent]

theorem filter_map_fixed {α : Type} (g : α → α) (p : α → Bool) (l : List α)
    (hp : ∀ x, p (g x) = p x) (hfix : ∀ x, p x = true → g x = x) :
    (l.map g).filter p = l.filter p := by
  induction l with
  | nil => rfl
  | cons x xs ih =>
      simp only [List.map_cons, List.filter_cons, hp x]
      cases hx : p x with
      | false => simpa using ih
      | true => simp [hfix x hx, ih]

theorem renameFnIdent_roundtrip (a b : String) (i : Ident)
    (h : ¬(isFunctionIdent i = true ∧ i.name = b)) :
    renameFnIdent b a (renameFnIdent a b i) = i := by
  by_cases hfn : isFunctionIdent i = true
  · have hnb : i.name ≠ b := fun hb => h ⟨hfn, hb⟩
    by_cases hna : i.name = a
    · have h1 : renameFnIdent a b i = { i with name := b } := by
        simp [renameFnIdent, hna, hfn]
      rw [h1]
      have h2 : isFunctionIdent { i with name := b } = true := by
        rw [isFunctionIdent_set_name]; exact hfn
      simp only [renameFnIdent, h2, if_true, beq_self_eq_true, if_pos]
      cases i with
      | mk nm pos obj => simp_all
    · have h1 : renameFnIdent a b i = i := by simp [renameFnIdent, hna]
      rw [h1]
      simp [renameFnIdent, hnb]
  · have hfn' : isFunctionIdent i = false := by simpa using hfn
    have h1 : renameFnIdent a b i = i := by
      by_cases hna : i.name = a <;> simp [renameFnIdent, hna, hfn']
    rw [h1]
    by_cases hnb : i.name = b <;> simp [renameFnIdent, hnb, hfn']

theorem editDecl_callNodes_filter (r : AddParameter) (d : Node) :
    ((r.editDecl d).allNodes).filter Node.isCall = (d.allNodes).filter Node.isCall := by
  cases d with
  | funcDecl recv name params results body =>
      cases hn : (name.name == r.FunctionName) with
      | false => simp [AddParameter.editDecl, hn]
      | true =>
          simp only [AddParameter.editDecl, hn, if_true]
          simp [Node.allNodes, NodeList.allNodes_append, NodeList.allNodes,
            AddParameter.newParam, List.filter_append, Node.isCall]
  | ident i => rfl
  | lit v p => rfl
  | sel x s => rfl
  | call fn args => rfl
  | exprStmt e => rfl
  | assign lhs rhs => rfl
  | ret rs => rfl
  | block ss => rfl
  | fieldNode names ty => rfl
  | typeDecl name fields => rfl
  | importDecl name path p => rfl

theorem map_editDecl_callNodes (r : AddParameter) (decls : List Node) :
    ((decls.map r.editDecl).flatMap Node.allNodes).filter Node.isCall =
      (decls.flatMap Node.allNodes).filter Node.isCall := by
  induction decls with
  | nil => rfl
  | cons d ds ih =>
      simp only [List.map_cons, List.flatMap_cons, List.filter_append]
      rw [editDecl_callNodes_filter, ih]

theorem paramExtract_editDecl (r : AddParameter) (d : Node) :
    paramExtract r.FunctionName (r.editDecl d) =
      (paramExtract r.FunctionName d).map
        (fun ps => ps.append (.cons r.newParam .nil)) := by
  cases d with
  | funcDecl recv name params results body =>
      cases hn : (name.name == r.FunctionName) with
      | false => simp [AddParameter.editDecl, paramExtract, hn]
      | true => simp [AddParameter.editDecl, paramExtract, hn]
  | ident i => rfl
  | lit v p => rfl
  | sel x s => rfl
  | call fn args => rfl
  | exprStmt e => rfl
  | assign lhs rhs => rfl
  | ret rs => rfl
  | block ss => rfl
  | fieldNode names ty => rfl
  | typeDecl name fields => rfl
  | importDecl name path p => rfl

theorem map_editDecl_funcParams (r : AddParameter) (decls : List Node) :
    (decls.map r.editDecl).filterMap (paramExtract r.FunctionName) =
      (decls.filterMap (paramExtract r.FunctionName)).map
        (fun ps => ps.append (.cons r.newParam .nil)) := by
  induction decls with
  | nil => rfl
  | cons d ds ih =>
      simp only [List.map_cons, List.filterMap_cons, paramExtract_editDecl r d]
      cases hpd : paramExtract r.FunctionName d with
      | none => simpa only [hpd, Option.map_none'] using ih
      | some ps =>
          simp only [hpd, Option.map_some', List.map_cons]
          rw [ih]

theorem isFuncDeclNamed_editDecl (r : AddParameter) (d : Node) :
    isFuncDeclNamed r.FunctionName (r.editDecl d) = isFuncDeclNamed r.FunctionName d := by
  cases d with
  | funcDecl recv name params results body =>
      cases hn : (name.name == r.FunctionName) with
      | false => simp [AddParameter.editDecl, isFuncDeclNamed, hn]
      | true => simp [AddParameter.editDecl, isFuncDeclNamed, hn]
  | ident i => rfl
  | lit v p => rfl
  | sel x s => rfl
  | call fn args => rfl
  | exprStmt e => rfl
  | assign lhs rhs => rfl
  | ret rs => rfl
  | block ss => rfl
  | fieldNode names ty => rfl
  | typeDecl name fields => rfl
  | importDecl name path p => rfl

theorem editDecl_eq_of_not_named (r : AddParameter) (d : Node)
    (h : isFuncDeclNamed r.FunctionName d = false) : r.editDecl d = d := by
  cases d with
  | funcDecl recv name params results body =>
      simp only [isFuncDeclNamed] at h
      simp [AddParameter.editDecl, h]
  | ident i => rfl
  | lit v p => rfl
  | sel x s => rfl
  | call fn args => rfl
  | exprStmt e => rfl
  | assign lhs rhs => rfl
  | ret rs => rfl
  | block ss => rfl
  | fieldNode names ty => rfl
  | typeDecl name fields => rfl
  | importDecl name path p => rfl

theorem map_editDecl_nonMatching (r : AddParameter) (decls : List Node) :
    (decls.map r.editDecl).filter (fun d => !(isFuncDeclNamed r.FunctionName d)) =
      decls.filter (fun d => !(isFuncDeclNamed r.FunctionName d)) := by
  induction decls with
  | nil => rfl
  | cons d ds ih =>
      simp only [List.map_cons, List.filter_cons, isFuncDeclNamed_editDecl r d]
      cases hd : isFuncDeclNamed r.FunctionName d with
      | true => simpa only [hd, Bool.not_true, Bool.false_eq_true, if_false] using ih
      | false =>
          simp only [hd, Bool.not_false, if_true, editDecl_eq_of_not_named r d hd]
          rw [ih]

end Refactor

/-!
## Claim theorems
-/

/-- C1 (code bug): generating code for the shape
`{id uint64, name string, active bool}` with SQL generation enabled does not
produce a CREATE TABLE statement: the template references `GetSQLType`,
which is registered in no `FuncMap` and defined nowhere in the repository,
so `tmpl.Parse` fails and `GenerateCode` returns an error with no output. -/
theorem c1_generateCode_user_shape_fails :
    Gen.GenerateCode (Gen.ExtractStructs Examples.userShapeFile).1
        (Gen.ExtractStructs Examples.userShapeFile).2 ""
        { genMethods := true, genJSON := true, genSQLite := true } =
      Except.error "failed to parse template: function \x22GetSQLType\x22 not defined" := by
  rfl

/-- C2: for every struct list, package name, package-flag value and toggle
combination, `GenerateCode` fails: the template text invokes `GetSQLType`,
which the `FuncMap` does not register, so template parsing errors before any
code is emitted. -/
theorem c2_generateCode_always_errors (structs : List Gen.StructInfo)
    (pkgName pkgFlag : String) (opts : Gen.GenOptions) :
    Gen.GenerateCode structs pkgName pkgFlag opts =
      Except.error "failed to parse template: function \x22GetSQLType\x22 not defined" := by
  rfl

/-- C3 (counterexample): on a file with two unused imports, two lint runs
whose map-iteration orders are both permutations of the remaining keys
return different Issue lists, refuting byte-identical determinism. -/
theorem c3_lint_order_counterexample :
    Linter.lintFile Examples.twoUnusedFile ["fmt", "os"] ≠
        Linter.lintFile Examples.twoUnusedFile ["os", "fmt"] ∧
      ["fmt", "os"].Perm (Linter.remainingKeys Examples.twoUnusedFile) ∧
      ["os", "fmt"].Perm (Linter.remainingKeys Examples.twoUnusedFile) := by
  refine ⟨?_, ?_, ?_⟩ <;> decide

/-- C3 (amended): two lint runs on the same unmodified file produce Issue
lists that are permutations of each other (equal multisets); the order of
the unused-import issues may differ because the report loop ranges over a
Go map. -/
theorem c3_lint_issue_multiset_deterministic (f : GoAst.File) (ord1 ord2 : List String)
    (h1 : ord1.Perm (Linter.remainingKeys f)) (h2 : ord2.Perm (Linter.remainingKeys f)) :
    (Linter.lintFile f ord1).Perm (Linter.lintFile f ord2) := by
  unfold Linter.lintFile Linter.UnusedImportRule.Check
  exact List.Perm.append_right _ ((h1.trans h2.symm).filterMap _)

/-- Witness for C3 (amended) at the two-unused-imports file. -/
theorem c3_lint_issue_multiset_deterministic_witness :
    (Linter.lintFile Examples.twoUnusedFile ["fmt", "os"]).Perm
      (Linter.lintFile Examples.twoUnusedFile ["os", "fmt"]) :=
  c3_lint_issue_multiset_deterministic Examples.twoUnusedFile ["fmt", "os"] ["os", "fmt"]
    (by decide) (by decide)

/-- C4: an import whose local name the traversal sees as an identifier is
never reported by `UnusedImportRule`; a file with zero imports, or whose
imports are all used, yields an empty issue set from this rule. -/
theorem c4_used_import_never_flagged (f : GoAst.File) (ord : List String) (n : String) :
    (n ∈ Linter.usedNames f →
        (Linter.UnusedImportRule.Check f ord).filter
            (fun iss => iss.message == "Unused import: " ++ n) = []) ∧
      (Linter.File.imports f = [] → Linter.UnusedImportRule.Check f ord = []) ∧
      ((∀ kv ∈ Linter.buildImportMap f, kv.1 ∈ Linter.usedNames f) →
        Linter.UnusedImportRule.Check f ord = []) := by
  refine ⟨fun hn => Linter.unused_check_no_issue_for_used f ord n hn,
    fun himp => ?_, fun hall => ?_⟩
  · apply Linter.check_empty_of_no_remaining
    unfold Linter.remainingImports
    rw [Linter.foldl_mapDelete_eq_filter]
    have hb : Linter.buildImportMap f = [] := by
      unfold Linter.buildImportMap
      rw [himp]
      rfl
    rw [hb]
    rfl
  · apply Linter.check_empty_of_no_remaining
    unfold Linter.remainingImports
    rw [Linter.foldl_mapDelete_eq_filter]
    apply List.filter_eq_nil_iff.2
    intro kv hkv
    have hm := hall kv hkv
    simp [hm]

/-- Witness for C4: `fmt` is used in the example file and is not flagged;
files with no imports, or no unused imports, produce no issues. -/
theorem c4_used_import_never_flagged_witness :
    ((Linter.UnusedImportRule.Check Examples.usedImportFile ["os"]).filter
        (fun iss => iss.message == "Unused import: " ++ "fmt") = []) ∧
      Linter.UnusedImportRule.Check Examples.plainFile ["fmt"] = [] ∧
      Linter.UnusedImportRule.Check Examples.aliasImportFile ["foo"] = [] :=
  ⟨(c4_used_import_never_flagged Examples.usedImportFile ["os"] "fmt").1 (by decide),
   (c4_used_import_never_flagged Examples.plainFile ["fmt"] "x").2.1 (by decide),
   (c4_used_import_never_flagged Examples.aliasImportFile ["foo"] "x").2.2 (by decide)⟩

/-- C5: rename-variable leaves every type-declaration and type-use
identifier of the file unchanged (role isolation), in particular when the
file declares a type named `old`. -/
theorem c5_rename_variable_preserves_type_idents (f : GoAst.File) (old new : String)
    (_h : Refactor.hasTypeDeclNamed old f = true) :
    Refactor.typeUses (Refactor.RenameVariable.Apply ⟨old, new⟩ f) = Refactor.typeUses f := by
  unfold Refactor.typeUses Refactor.RenameVariable.Apply
  rw [GoAst.File.collectIdents_mapIdents_file]
  apply Refactor.filter_map_fixed
  · intro i
    unfold Refactor.renameVarIdent
    by_cases h1 : (i.name == old) = true
    · by_cases h2 : Refactor.isVarIdent i = true <;>
        simp [h1, h2, Refactor.isTypeUse_set_name]
    · simp [h1]
  · intro i hi
    have hv := Refactor.isVarIdent_eq_false_of_isTypeUse i hi
    unfold Refactor.renameVarIdent
    by_cases h1 : (i.name == old) = true <;> simp [h1, hv]

/-- Witness for C5 at a file declaring type `T` and assigning a variable
also named `T`. -/
theorem c5_rename_variable_preserves_type_idents_witness :
    Refactor.hasTypeDeclNamed "T" Examples.typeAndVarFile = true ∧
      Refactor.typeUses (Refactor.RenameVariable.Apply ⟨"T", "U"⟩ Examples.typeAndVarFile) =
        Refactor.typeUses Examples.typeAndVarFile :=
  ⟨by decide,
   c5_rename_variable_preserves_type_idents Examples.typeAndVarFile "T" "U" (by decide)⟩

/-- C6 (counterexample): on a file already containing a function named `g`,
`rename-function(f,g)` followed by `rename-function(g,f)` does not restore
the original tree. -/
theorem c6_rename_roundtrip_counterexample :
    Refactor.RenameFunction.Apply ⟨"g", "f"⟩
        (Refactor.RenameFunction.Apply ⟨"f", "g"⟩ Examples.funcGFile) ≠
      Examples.funcGFile := by
  decide

/-- C6 (amended): when no identifier of the tree is a function identifier
named `b`, `rename-function(a,b)` followed by `rename-function(b,a)`
restores the tree exactly, and the composed operation is idempotent. -/
theorem c6_rename_function_roundtrip (f : GoAst.File) (a b : String)
    (h : ∀ i ∈ GoAst.File.collectIdents f,
      ¬(Refactor.isFunctionIdent i = true ∧ i.name = b)) :
    Refactor.RenameFunction.Apply ⟨b, a⟩ (Refactor.RenameFunction.Apply ⟨a, b⟩ f) = f ∧
      Refactor.RenameFunction.Apply ⟨b, a⟩ (Refactor.RenameFunction.Apply ⟨a, b⟩
          (Refactor.RenameFunction.Apply ⟨b, a⟩
            (Refactor.RenameFunction.Apply ⟨a, b⟩ f))) =
        Refactor.RenameFunction.Apply ⟨b, a⟩ (Refactor.RenameFunction.Apply ⟨a, b⟩ f) := by
  have hrt : Refactor.RenameFunction.Apply ⟨b, a⟩
      (Refactor.RenameFunction.Apply ⟨a, b⟩ f) = f := by
    unfold Refactor.RenameFunction.Apply
    exact GoAst.File.mapIdents_roundtrip_file _ _ f
      (fun i hi => Refactor.renameFnIdent_roundtrip a b i (h i hi))
  exact ⟨hrt, by rw [hrt]; exact hrt⟩

/-- Witness for C6 (amended) at a file declaring and calling `f` with no
function identifier named `g`. -/
theorem c6_rename_function_roundtrip_witness :
    Refactor.RenameFunction.Apply ⟨"g", "f"⟩
        (Refactor.RenameFunction.Apply ⟨"f", "g"⟩ Examples.funcFFile) =
      Examples.funcFFile :=
  (c6_rename_function_roundtrip Examples.funcFFile "f" "g" (by decide)).1

/-- C7: add-parameter appends the new parameter field to every function
declaration named `f` and changes nothing else: every call expression and
every non-matching declaration is unchanged. -/
theorem c7_add_parameter_preserves_call_sites (f : GoAst.File) (r : Refactor.AddParameter) :
    GoAst.File.callNodes (r.Apply f) = GoAst.File.callNodes f ∧
      Refactor.funcParamsOf r.FunctionName (r.Apply f) =
        (Refactor.funcParamsOf r.FunctionName f).map
          (fun ps => ps.append (.cons r.newParam .nil)) ∧
      Refactor.nonMatchingDecls r.FunctionName (r.Apply f) =
        Refactor.nonMatchingDecls r.FunctionName f := by
  refine ⟨?_, ?_, ?_⟩
  · unfold GoAst.File.callNodes GoAst.File.allNodes Refactor.AddParameter.Apply
    exact Refactor.map_editDecl_callNodes r f.decls
  · unfold Refactor.funcParamsOf Refactor.AddParameter.Apply
    exact Refactor.map_editDecl_funcParams r f.decls
  · unfold Refactor.nonMatchingDecls Refactor.AddParameter.Apply
    exact Refactor.map_editDecl_nonMatching r f.decls

/-- C8 (counterexample): the spec string `a:` does not split into two
non-empty parts, yet validation accepts it, constructs a refactoring, and
the driver processes files. -/
theorem c8_two_part_empty_spec_accepted :
    GoStrings.splitChar ':' "a:" = ["a", ""] ∧
      Refactor.parseRenamePair "a:" = some ("a", "") ∧
      Refactor.buildRefactorings "a:" "" "" "" =
        Except.ok [Refactor.RefactoringOp.renameFunction ⟨"a", ""⟩] ∧
      Refactor.runTool "a:" "" "" "" [Examples.plainFile] =
        Except.ok [Examples.plainFile] := by
  refine ⟨?_, ?_, ?_, ?_⟩ <;> rfl

/-- C8 (amended): a rename specification whose `:` split does not yield
exactly two parts is rejected up front — the driver exits before any file
is processed, so no tree is modified; emptiness of the two parts is not
checked. -/
theorem c8_malformed_arity_rejected (s : String) (files : List GoAst.File)
    (hs : s ≠ "") (hlen : (GoStrings.splitChar ':' s).length ≠ 2) :
    Refactor.parseRenamePair s = none ∧
      Refactor.runTool s "" "" "" files =
        Except.error "Invalid format for -rename-fn, expected old:new" ∧
      Refactor.runTool "" s "" "" files =
        Except.error "Invalid format for -rename-type, expected old:new" ∧
      Refactor.runTool "" "" s "" files =
        Except.error "Invalid format for -rename-var, expected old:new" := by
  have hp : Refactor.parseRenamePair s = none := by
    unfold Refactor.parseRenamePair
    rcases hsp : GoStrings.splitChar ':' s with _ | ⟨a, _ | ⟨b, _ | ⟨c, rest⟩⟩⟩
    · rfl
    · rfl
    · exact absurd (by rw [hsp]; rfl) hlen
    · rfl
  refine ⟨hp, ?_, ?_, ?_⟩ <;>
    · simp [Refactor.runTool, Refactor.buildRefactorings, hs, hp]
      rfl

/-- Witness for C8 (amended) at the three-part spec `a:b:c`. -/
theorem c8_malformed_arity_rejected_witness :
    Refactor.parseRenamePair "a:b:c" = none ∧
      Refactor.runTool "a:b:c" "" "" "" [Examples.plainFile] =
        Except.error "Invalid format for -rename-fn, expected old:new" ∧
      Refactor.runTool "" "a:b:c" "" "" [Examples.plainFile] =
        Except.error "Invalid format for -rename-type, expected old:new" ∧
      Refactor.runTool "" "" "a:b:c" "" [Examples.plainFile] =
        Except.error "Invalid format for -rename-var, expected old:new" :=
  c8_malformed_arity_rejected "a:b:c" [Examples.plainFile] (by decide) (by decide)

/-- C9 (counterexample): for the struct `T { a, b int }` the extracted field
list is `[a]`, not the declared `[a, b]`: a multi-name field group keeps
only its first name, so the extracted fields are not exactly the declared
fields. -/
theorem c9_field_order_counterexample :
    (((Gen.ExtractStructs Examples.multiNameFile).1).map fun s => s.Fields.map (·.Name)) ≠
      Gen.declaredStructAllNames Examples.multiNameFile := by
  decide

/-- C9 (amended): extraction keeps one field per named group — the group's
first name — in declaration order (embedded fields skipped), and that order
is preserved verbatim into the rendered constructor parameter list and SQL
insert column list. -/
theorem c9_field_order_preserved (f : Gen.GoFile) :
    (((Gen.ExtractStructs f).1).map fun s => s.Fields.map (·.Name)) =
        Gen.declaredStructFirstNames f ∧
      ∀ s ∈ (Gen.ExtractStructs f).1,
        Gen.renderConstructorParams s =
            Gen.commaSeparated (s.Fields.map fun fl => fl.Name ++ " " ++ fl.Ty) ∧
          Gen.renderInsertColumns s = Gen.commaSeparated (s.Fields.map (·.DBName)) :=
  ⟨Gen.extractStructs_names f,
   fun s _ => ⟨Gen.renderConstructorParams_eq s, Gen.renderInsertColumns_eq s⟩⟩

/-- Witness for C9 (amended) at the two-struct example file, instantiated at
its first extracted struct. -/
theorem c9_field_order_preserved_witness :
    Gen.renderConstructorParams
          ((Gen.ExtractStructs Examples.orderWitnessFile).1.headD ⟨"", [], [], []⟩) =
        Gen.commaSeparated
          (((Gen.ExtractStructs Examples.orderWitnessFile).1.headD
              ⟨"", [], [], []⟩).Fields.map fun fl => fl.Name ++ " " ++ fl.Ty) ∧
      Gen.renderInsertColumns
          ((Gen.ExtractStructs Examples.orderWitnessFile).1.headD ⟨"", [], [], []⟩) =
        Gen.commaSeparated
          (((Gen.ExtractStructs Examples.orderWitnessFile).1.headD
              ⟨"", [], [], []⟩).Fields.map (·.DBName)) :=
  (c9_field_order_preserved Examples.orderWitnessFile).2
    ((Gen.ExtractStructs Examples.orderWitnessFile).1.headD ⟨"", [], [], []⟩) (by decide)

/-- C10: a named (aliased) import is never reported unused, even when the
alias occurs nowhere else: the traversal visits the import's own name
identifier, which deletes the name from the tracked map before the report
loop runs. -/
theorem c10_named_import_never_reported (f : GoAst.File) (ord : List String)
    (i : GoAst.Ident) (path : String) (p : GoAst.Pos)
    (h : GoAst.Node.importDecl (some i) path p ∈ f.decls) :
    (Linter.UnusedImportRule.Check f ord).filter
        (fun iss => iss.message == "Unused import: " ++ i.name) = [] := by
  apply Linter.unused_check_no_issue_for_used
  simp only [Linter.usedNames, GoAst.File.collectIdents, List.mem_map, List.mem_flatMap]
  exact ⟨i, ⟨GoAst.Node.importDecl (some i) path p, h,
    by simp [GoAst.Node.collectIdents]⟩, rfl⟩

/-- Witness for C10 at a file whose only declaration is the aliased import
`foo "pkg/bar"`. -/
theorem c10_named_import_never_reported_witness :
    (Linter.UnusedImportRule.Check Examples.aliasImportFile ["foo", "bar"]).filter
        (fun iss => iss.message == "Unused import: " ++ "foo") = [] :=
  c10_named_import_never_reported Examples.aliasImportFile ["foo", "bar"]
    { name := "foo", pos := ⟨3, 2⟩, obj := none } "pkg/bar" ⟨3, 2⟩ (by decide)
